import Mathlib

/-
Verification of the recipe-app-api backend model: user store, domain
entities (Tag, Ingredient, Recipe), the access-controlled query layer for
listing tags and ingredients, and the HTTP API layer behaviour.

The repository sources available are the API and model test suites and the
schema migration 0003 (which fixes the Ingredient/Tag name columns as
globally unique with max_length 255).  The model and view bodies themselves
are not among the sources, so the operations below are modelled from the
specification, kept consistent with the behaviour the in-repository tests
assert and with the column constraints the in-repository migration declares.
-/

namespace RecipeApp

/-- A user account row: email is stored normalized, password is stored
hashed, plus the active/staff/superuser flags of the data model. -/
structure User where
  id : Nat
  email : String
  password : String
  is_active : Bool
  is_staff : Bool
  is_superuser : Bool
deriving DecidableEq

/-- A Tag row: a name and the id of the single owning user. -/
structure Tag where
  id : Nat
  name : String
  user : Nat
deriving DecidableEq

/-- An Ingredient row: a name and the id of the single owning user. -/
structure Ingredient where
  id : Nat
  name : String
  user : Nat
deriving DecidableEq

/-- A Recipe row: title, time in minutes, price, owning user, and the
many-to-many association lists holding ids of Tags and Ingredients. -/
structure Recipe where
  id : Nat
  title : String
  time_minutes : Nat
  price : ℚ
  user : Nat
  tags : List Nat
  ingredients : List Nat
deriving DecidableEq

/-- The persistent relational store: one table per entity. -/
structure Db where
  users : List User
  tags : List Tag
  ingredients : List Ingredient
  recipes : List Recipe
deriving DecidableEq

/-- The empty database, the initial state of the system. -/
def emptyDb : Db := ⟨[], [], [], []⟩

/-- Errors raised by the user store: the taxonomy of the spec has a
validation-failure class, while the model test suite asserts that user
creation with a missing email raises ValueError. -/
inductive UserError where
  | valueError
  | validationError
deriving DecidableEq

/-- The full-lowercase form of a string (used to state the normalization
example of the spec). -/
def lowerAll (s : String) : String := ⟨s.data.map Char.toLower⟩

/-- Lowercase the characters of a reversed character list up to (and not
including) the first occurrence of the at sign, i.e. lowercase the domain
part of an email address presented in reverse. -/
def lowerDomainRev : List Char → List Char
  | [] => []
  | c :: rest => if c = '@' then c :: rest else Char.toLower c :: lowerDomainRev rest

/-- Modelled from the spec: the user store normalizes the email before
storage.  The spec records the normalization as lowercase of the domain or
of the full address (source ambiguous); this model lowercases the part
after the last at sign, leaving an address without an at sign unchanged. -/
def normalize_email (email : String) : String :=
  if email.data.contains '@' then ⟨(lowerDomainRev email.data.reverse).reverse⟩
  else email

/-- Modelled from the spec: the password hasher itself lives outside the
repository.  The spec requires only that the stored value is a hash and
never the plaintext and that verification matches exactly the original
password, so the hash is modelled as an injective tagged encoding that
never returns its input. -/
def make_password (plaintext : String) : String := "pbkdf2_sha256$" ++ plaintext

/-- Modelled from the spec: check_password(user, plaintext) verifies a hash
match against the stored password field. -/
def check_password (u : User) (plaintext : String) : Bool :=
  u.password == make_password plaintext

/-- Modelled from the spec: create_user(email, password) fails when the
email is empty or absent (the model test suite asserts the failure is a
ValueError), otherwise persists one row with the normalized email and the
hashed password and returns the created record.  The store is threaded
explicitly; on failure it is returned unchanged. -/
def create_user (email : Option String) (password : String) (db : Db) :
    Except UserError User × Db :=
  match email with
  | none => (Except.error UserError.valueError, db)
  | some e =>
    if e = "" then (Except.error UserError.valueError, db)
    else
      let u : User :=
        ⟨db.users.length, normalize_email e, make_password password, true, false, false⟩
      (Except.ok u, { db with users := db.users ++ [u] })

/-- Modelled from the spec: create_superuser behaves as create_user and
additionally sets the staff and superuser flags. -/
def create_superuser (email : Option String) (password : String) (db : Db) :
    Except UserError User × Db :=
  match email with
  | none => (Except.error UserError.valueError, db)
  | some e =>
    if e = "" then (Except.error UserError.valueError, db)
    else
      let u : User :=
        ⟨db.users.length, normalize_email e, make_password password, true, true, true⟩
      (Except.ok u, { db with users := db.users ++ [u] })

/-- Boolean comparison putting larger names first: the name-descending
order of the listing endpoints. -/
def nameDesc {α : Type} (nm : α → String) (a b : α) : Bool :=
  decide (nm b ≤ nm a)

/-- Modelled from the spec: the relational join underlying the
assigned-only ingredient listing.  It pairs every Recipe owned by the
requesting user with every Ingredient owned by that user that the recipe
references, so an ingredient referenced by several recipes occurs several
times before duplicates are collapsed. -/
def ingredientJoin (uid : Nat) (db : Db) : List Ingredient :=
  (db.recipes.filter (fun r => r.user == uid)).flatMap
    (fun r => db.ingredients.filter (fun i => i.user == uid && r.ingredients.contains i.id))

/-- Modelled from the spec: the same join for the tag listing. -/
def tagJoin (uid : Nat) (db : Db) : List Tag :=
  (db.recipes.filter (fun r => r.user == uid)).flatMap
    (fun r => db.tags.filter (fun t => t.user == uid && r.tags.contains t.id))

/-- Modelled from the spec: the access-controlled query layer for
ingredients.  With assigned_only true it returns the user-owned rows
referenced by at least one of the user's recipes with duplicates
collapsed; with assigned_only false it returns all rows owned by the
requesting user in name-descending order. -/
def get_ingredients_queryset (uid : Nat) (assigned_only : Bool) (db : Db) :
    List Ingredient :=
  match assigned_only with
  | true => (ingredientJoin uid db).dedup
  | false =>
      (db.ingredients.filter (fun i => i.user == uid)).mergeSort (nameDesc Ingredient.name)

/-- Modelled from the spec: the access-controlled query layer for tags. -/
def get_tags_queryset (uid : Nat) (assigned_only : Bool) (db : Db) : List Tag :=
  match assigned_only with
  | true => (tagJoin uid db).dedup
  | false =>
      (db.tags.filter (fun t => t.user == uid)).mergeSort (nameDesc Tag.name)

/-- Outcome of an HTTP request: 200 with a list body, 201 with the created
resource, 400 validation failure, or 401 authorization failure. -/
inductive ApiResponse (α : Type) where
  | ok (body : List α)
  | created (body : α)
  | badRequest
  | unauthorized
deriving DecidableEq

/-- Modelled from the spec: GET on the ingredient listing endpoint.  An
unauthenticated request is rejected with an authorization failure and no
resource data; an authenticated one receives the query layer result. -/
def list_ingredients (auth : Option Nat) (assigned_only : Bool) (db : Db) :
    ApiResponse Ingredient :=
  match auth with
  | none => ApiResponse.unauthorized
  | some uid => ApiResponse.ok (get_ingredients_queryset uid assigned_only db)

/-- Modelled from the spec: GET on the tag listing endpoint. -/
def list_tags (auth : Option Nat) (assigned_only : Bool) (db : Db) :
    ApiResponse Tag :=
  match auth with
  | none => ApiResponse.unauthorized
  | some uid => ApiResponse.ok (get_tags_queryset uid assigned_only db)

/-- Modelled from the spec: POST on the ingredient creation endpoint.
Unauthenticated requests are rejected; an empty name fails validation; the
length bound and the global uniqueness of the name column mirror the
constraints migration 0003 declares (max_length 255, unique); a valid
request persists one row owned by the requesting user and returns it. -/
def create_ingredient (auth : Option Nat) (name : String) (db : Db) :
    ApiResponse Ingredient × Db :=
  match auth with
  | none => (ApiResponse.unauthorized, db)
  | some uid =>
    if name = "" then (ApiResponse.badRequest, db)
    else if 255 < name.length then (ApiResponse.badRequest, db)
    else if db.ingredients.any (fun i => i.name == name) then (ApiResponse.badRequest, db)
    else
      let i : Ingredient := ⟨db.ingredients.length, name, uid⟩
      (ApiResponse.created i, { db with ingredients := db.ingredients ++ [i] })

/-- Modelled from the spec: POST on the tag creation endpoint, with the
same validation and the same column constraints from migration 0003. -/
def create_tag (auth : Option Nat) (name : String) (db : Db) :
    ApiResponse Tag × Db :=
  match auth with
  | none => (ApiResponse.unauthorized, db)
  | some uid =>
    if name = "" then (ApiResponse.badRequest, db)
    else if 255 < name.length then (ApiResponse.badRequest, db)
    else if db.tags.any (fun t => t.name == name) then (ApiResponse.badRequest, db)
    else
      let t : Tag := ⟨db.tags.length, name, uid⟩
      (ApiResponse.created t, { db with tags := db.tags ++ [t] })

/-- Modelled from the spec: recipe creation.  An unauthenticated request is
rejected; otherwise a recipe owned by the requesting user is persisted with
empty association lists. -/
def create_recipe (auth : Option Nat) (title : String) (time_minutes : Nat)
    (price : ℚ) (db : Db) : ApiResponse Recipe × Db :=
  match auth with
  | none => (ApiResponse.unauthorized, db)
  | some uid =>
    let r : Recipe := ⟨db.recipes.length, title, time_minutes, price, uid, [], []⟩
    (ApiResponse.created r, { db with recipes := db.recipes ++ [r] })

/-- Modelled from the spec: adding an ingredient to a recipe through the
mutable many-to-many association. -/
def recipe_add_ingredient (rid iid : Nat) (db : Db) : Db :=
  { db with
    recipes := db.recipes.map (fun r =>
      if r.id == rid then { r with ingredients := r.ingredients ++ [iid] } else r) }

/-- Modelled from the spec: adding a tag to a recipe through the mutable
many-to-many association. -/
def recipe_add_tag (rid tid : Nat) (db : Db) : Db :=
  { db with
    recipes := db.recipes.map (fun r =>
      if r.id == rid then { r with tags := r.tags ++ [tid] } else r) }

/-- The database states reachable from the empty store through the
mutating operations of the system. -/
inductive Reachable : Db → Prop where
  | init : Reachable emptyDb
  | user_created (email : Option String) (pwd : String) (db : Db) :
      Reachable db → Reachable (create_user email pwd db).2
  | superuser_created (email : Option String) (pwd : String) (db : Db) :
      Reachable db → Reachable (create_superuser email pwd db).2
  | ingredient_created (auth : Option Nat) (name : String) (db : Db) :
      Reachable db → Reachable (create_ingredient auth name db).2
  | tag_created (auth : Option Nat) (name : String) (db : Db) :
      Reachable db → Reachable (create_tag auth name db).2
  | recipe_created (auth : Option Nat) (title : String) (tm : Nat) (pr : ℚ) (db : Db) :
      Reachable db → Reachable (create_recipe auth title tm pr db).2
  | ingredient_assigned (rid iid : Nat) (db : Db) :
      Reachable db → Reachable (recipe_add_ingredient rid iid db)
  | tag_assigned (rid tid : Nat) (db : Db) :
      Reachable db → Reachable (recipe_add_tag rid tid db)

/-- The database restricted to the rows of one user; used to state that a
listing is unaffected by rows owned by other users. -/
def restrictDb (uid : Nat) (db : Db) : Db :=
  ⟨db.users.filter (fun u => u.id == uid),
   db.tags.filter (fun t => t.user == uid),
   db.ingredients.filter (fun i => i.user == uid),
   db.recipes.filter (fun r => r.user == uid)⟩

/-- Concrete store mirroring the unique-list test: two ingredients of user
0, the first assigned to two recipes of that user. -/
def dbAssignedW : Db :=
  ⟨[], [], [⟨0, "Potato", 0⟩, ⟨1, "Milk", 0⟩],
   [⟨0, "Roasted potato", 20, 15, 0, [], [0]⟩, ⟨1, "Borsch", 40, 30, 0, [], [0]⟩]⟩

/-- Concrete store mirroring the limited-to-user test: one ingredient of
user 1 and one of user 0. -/
def dbIsolationW : Db := ⟨[], [], [⟨0, "Sault", 1⟩, ⟨1, "Sugar", 0⟩], []⟩

/-- A name one character beyond the 255-character column bound of
migration 0003. -/
def longNameW : String := ⟨List.replicate 256 'a'⟩

/-- A concrete reachable store holding one ingredient and one tag. -/
def dbReachW : Db :=
  (create_tag (some 0) "Vegan" (create_ingredient (some 0) "Sugar" emptyDb).2).2

/-- Filtering by a predicate that implies an earlier filter makes the
earlier filter redundant. -/
lemma filter_stable {α : Type} (l : List α) (q p : α → Bool)
    (h : ∀ a, p a = true → q a = true) : (l.filter q).filter p = l.filter p := by
  rw [List.filter_filter]
  apply List.filter_congr
  intro a _
  cases hp : p a
  · simp
  · simp [h a hp]

/-- The name-descending comparison is transitive. -/
lemma nameDesc_trans {α : Type} (nm : α → String) :
    ∀ a b c, nameDesc nm a b = true → nameDesc nm b c = true → nameDesc nm a c = true := by
  intro a b c hab hbc
  simp only [nameDesc, decide_eq_true_eq] at *
  exact le_trans hbc hab

/-- The name-descending comparison is total. -/
lemma nameDesc_total {α : Type} (nm : α → String) :
    ∀ a b, (nameDesc nm a b || nameDesc nm b a) = true := by
  intro a b
  simp only [nameDesc, Bool.or_eq_true, decide_eq_true_eq]
  exact le_total (nm b) (nm a)

/-- Every ingredient the query layer returns is owned by the requesting
user. -/
lemma user_of_mem_ingredients {uid : Nat} {ao : Bool} {db : Db} {i : Ingredient}
    (h : i ∈ get_ingredients_queryset uid ao db) : i.user = uid := by
  cases ao with
  | false =>
    simp only [get_ingredients_queryset, List.mem_mergeSort, List.mem_filter,
      beq_iff_eq] at h
    exact h.2
  | true =>
    simp only [get_ingredients_queryset, List.mem_dedup, ingredientJoin, List.mem_flatMap,
      List.mem_filter, Bool.and_eq_true, beq_iff_eq] at h
    obtain ⟨r, _, _, hu, _⟩ := h
    exact hu

/-- Every tag the query layer returns is owned by the requesting user. -/
lemma user_of_mem_tags {uid : Nat} {ao : Bool} {db : Db} {t : Tag}
    (h : t ∈ get_tags_queryset uid ao db) : t.user = uid := by
  cases ao with
  | false =>
    simp only [get_tags_queryset, List.mem_mergeSort, List.mem_filter, beq_iff_eq] at h
    exact h.2
  | true =>
    simp only [get_tags_queryset, List.mem_dedup, tagJoin, List.mem_flatMap,
      List.mem_filter, Bool.and_eq_true, beq_iff_eq] at h
    obtain ⟨r, _, _, hu, _⟩ := h
    exact hu

/-- The ingredient listing only depends on the rows of the requesting
user. -/
lemma ingredients_queryset_restrict (db : Db) (uid : Nat) (ao : Bool) :
    get_ingredients_queryset uid ao db = get_ingredients_queryset uid ao (restrictDb uid db) := by
  cases ao with
  | false =>
    simp only [get_ingredients_queryset, restrictDb]
    rw [filter_stable db.ingredients (fun i => i.user == uid) (fun i => i.user == uid)
      (fun a ha => ha)]
  | true =>
    simp only [get_ingredients_queryset, ingredientJoin, restrictDb]
    rw [filter_stable db.recipes (fun r => r.user == uid) (fun r => r.user == uid)
      (fun a ha => ha)]
    refine congrArg (fun l => List.dedup l) (congrArg (List.flatMap _) ?_)
    funext r
    exact (filter_stable db.ingredients (fun i => i.user == uid)
      (fun i => i.user == uid && r.ingredients.contains i.id)
      (fun a ha => by rw [Bool.and_eq_true] at ha; exact ha.1)).symm

/-- The tag listing only depends on the rows of the requesting user. -/
lemma tags_queryset_restrict (db : Db) (uid : Nat) (ao : Bool) :
    get_tags_queryset uid ao db = get_tags_queryset uid ao (restrictDb uid db) := by
  cases ao with
  | false =>
    simp only [get_tags_queryset, restrictDb]
    rw [filter_stable db.tags (fun t => t.user == uid) (fun t => t.user == uid)
      (fun a ha => ha)]
  | true =>
    simp only [get_tags_queryset, tagJoin, restrictDb]
    rw [filter_stable db.recipes (fun r => r.user == uid) (fun r => r.user == uid)
      (fun a ha => ha)]
    refine congrArg (fun l => List.dedup l) (congrArg (List.flatMap _) ?_)
    funext r
    exact (filter_stable db.tags (fun t => t.user == uid)
      (fun t => t.user == uid && r.tags.contains t.id)
      (fun a ha => by rw [Bool.and_eq_true] at ha; exact ha.1)).symm

/-- The modelled hash never returns its input. -/
lemma make_password_ne (p : String) : make_password p ≠ p := by
  intro h
  have h2 : (make_password p).data.length = p.data.length := by rw [h]
  rw [make_password, String.data_append, List.length_append] at h2
  have h3 : ("pbkdf2_sha256$" : String).data.length = 14 := by decide
  omega

/-- The modelled hash is injective. -/
lemma make_password_inj {p q : String} (h : make_password p = make_password q) : p = q := by
  apply String.ext
  have h2 := congrArg String.data h
  rw [make_password, make_password, String.data_append, String.data_append] at h2
  exact List.append_cancel_left h2

/-- User creation leaves the ingredient and tag tables untouched. -/
lemma create_user_frame (e : Option String) (p : String) (db : Db) :
    (create_user e p db).2.ingredients = db.ingredients ∧
    (create_user e p db).2.tags = db.tags := by
  cases e with
  | none => exact ⟨rfl, rfl⟩
  | some e => by_cases h : e = "" <;> simp [create_user, h]

/-- Superuser creation leaves the ingredient and tag tables untouched. -/
lemma create_superuser_frame (e : Option String) (p : String) (db : Db) :
    (create_superuser e p db).2.ingredients = db.ingredients ∧
    (create_superuser e p db).2.tags = db.tags := by
  cases e with
  | none => exact ⟨rfl, rfl⟩
  | some e => by_cases h : e = "" <;> simp [create_superuser, h]

/-- Recipe creation leaves the ingredient and tag tables untouched. -/
lemma create_recipe_frame (auth : Option Nat) (t : String) (tm : Nat) (pr : ℚ) (db : Db) :
    (create_recipe auth t tm pr db).2.ingredients = db.ingredients ∧
    (create_recipe auth t tm pr db).2.tags = db.tags := by
  cases auth <;> exact ⟨rfl, rfl⟩

/-- Ingredient creation either leaves the store unchanged or, when every
validation step passes, appends exactly one row carrying the requested
name. -/
lemma create_ingredient_effect (auth : Option Nat) (name : String) (db : Db) :
    ((create_ingredient auth name db).2.ingredients = db.ingredients ∧
     (create_ingredient auth name db).2.tags = db.tags) ∨
    (name.length ≤ 255 ∧ (db.ingredients.any (fun i => i.name == name)) = false ∧
     (create_ingredient auth name db).2.tags = db.tags ∧
     ∃ uid, (create_ingredient auth name db).2.ingredients =
        db.ingredients ++ [⟨db.ingredients.length, name, uid⟩]) := by
  cases auth with
  | none => exact Or.inl ⟨rfl, rfl⟩
  | some uid =>
    by_cases h1 : name = ""
    · exact Or.inl (by simp [create_ingredient, h1])
    · by_cases h2 : 255 < name.length
      · exact Or.inl (by simp [create_ingredient, h1, h2])
      · by_cases h3 : db.ingredients.any (fun i => i.name == name) = true
        · exact Or.inl (by simp [create_ingredient, h1, h2, h3])
        · have h3f : db.ingredients.any (fun i => i.name == name) = false := by
            simpa using h3
          exact Or.inr ⟨Nat.not_lt.mp h2, h3f, by simp [create_ingredient, h1, h2, h3f],
            uid, by simp [create_ingredient, h1, h2, h3f]⟩

/-- Tag creation either leaves the store unchanged or, when every
validation step passes, appends exactly one row carrying the requested
name. -/
lemma create_tag_effect (auth : Option Nat) (name : String) (db : Db) :
    ((create_tag auth name db).2.ingredients = db.ingredients ∧
     (create_tag auth name db).2.tags = db.tags) ∨
    (name.length ≤ 255 ∧ (db.tags.any (fun t => t.name == name)) = false ∧
     (create_tag auth name db).2.ingredients = db.ingredients ∧
     ∃ uid, (create_tag auth name db).2.tags =
        db.tags ++ [⟨db.tags.length, name, uid⟩]) := by
  cases auth with
  | none => exact Or.inl ⟨rfl, rfl⟩
  | some uid =>
    by_cases h1 : name = ""
    · exact Or.inl (by simp [create_tag, h1])
    · by_cases h2 : 255 < name.length
      · exact Or.inl (by simp [create_tag, h1, h2])
      · by_cases h3 : db.tags.any (fun t => t.name == name) = true
        · exact Or.inl (by simp [create_tag, h1, h2, h3])
        · have h3f : db.tags.any (fun t => t.name == name) = false := by
            simpa using h3
          exact Or.inr ⟨Nat.not_lt.mp h2, h3f, by simp [create_tag, h1, h2, h3f],
            uid, by simp [create_tag, h1, h2, h3f]⟩

/-- A failed existential name check means the name is absent from the
ingredient name column. -/
lemma ingredient_name_not_mem {l : List Ingredient} {name : String}
    (h : (l.any (fun i => i.name == name)) = false) :
    name ∉ l.map Ingredient.name := by
  intro hmem
  rw [List.mem_map] at hmem
  obtain ⟨i, hi, hn⟩ := hmem
  have ht : l.any (fun i => i.name == name) = true :=
    List.any_eq_true.mpr ⟨i, hi, by simp [hn]⟩
  rw [ht] at h
  exact absurd h (by decide)

/-- A failed existential name check means the name is absent from the tag
name column. -/
lemma tag_name_not_mem {l : List Tag} {name : String}
    (h : (l.any (fun t => t.name == name)) = false) :
    name ∉ l.map Tag.name := by
  intro hmem
  rw [List.mem_map] at hmem
  obtain ⟨t, ht0, hn⟩ := hmem
  have ht : l.any (fun t => t.name == name) = true :=
    List.any_eq_true.mpr ⟨t, ht0, by simp [hn]⟩
  rw [ht] at h
  exact absurd h (by decide)

/-- The witness store is reachable: one ingredient create followed by one
tag create from the empty store. -/
lemma dbReachW_reachable : Reachable dbReachW :=
  Reachable.tag_created (some 0) "Vegan" _
    (Reachable.ingredient_created (some 0) "Sugar" _ Reachable.init)

/-- C1: for every authenticated user, listing ingredients with assigned_only
set returns exactly the ingredient rows owned by that user that are
referenced by at least one Recipe owned by that same user, and each such
ingredient appears exactly once even when it is referenced by multiple
recipes. -/
theorem ingredients_assigned_only_exact (db : Db) (uid : Nat) (i : Ingredient) :
    (i ∈ get_ingredients_queryset uid true db ↔
      i ∈ db.ingredients ∧ i.user = uid ∧
        ∃ r ∈ db.recipes, r.user = uid ∧ i.id ∈ r.ingredients) ∧
    (i ∈ get_ingredients_queryset uid true db →
      List.count i (get_ingredients_queryset uid true db) = 1) := by
  constructor
  · simp only [get_ingredients_queryset, List.mem_dedup, ingredientJoin, List.mem_flatMap,
      List.mem_filter, Bool.and_eq_true, beq_iff_eq, List.contains, List.elem_iff]
    constructor
    · rintro ⟨r, ⟨hr, hru⟩, hi, hiu, hid⟩
      exact ⟨hi, hiu, r, hr, hru, hid⟩
    · rintro ⟨hi, hiu, r, hr, hru, hid⟩
      exact ⟨r, ⟨hr, hru⟩, hi, hiu, hid⟩
  · intro hmem
    exact List.count_eq_one_of_mem (List.nodup_dedup _) hmem

/-- C1 witness: in the store of the unique-list test, the ingredient
assigned to two recipes is listed exactly once. -/
theorem ingredients_assigned_only_exact_witness :
    List.count ⟨0, "Potato", 0⟩ (get_ingredients_queryset 0 true dbAssignedW) = 1 :=
  (ingredients_assigned_only_exact dbAssignedW 0 ⟨0, "Potato", 0⟩).2 (by decide)

/-- C2: for distinct users and any flag value, no row created by one user
appears in the listing of the other, and a listing is unaffected by rows
owned by other users. -/
theorem listing_owner_isolation (db : Db) (uid : Nat) (ao : Bool) :
    (∀ i : Ingredient, i.user ≠ uid → i ∉ get_ingredients_queryset uid ao db) ∧
    (∀ t : Tag, t.user ≠ uid → t ∉ get_tags_queryset uid ao db) ∧
    get_ingredients_queryset uid ao db = get_ingredients_queryset uid ao (restrictDb uid db) ∧
    get_tags_queryset uid ao db = get_tags_queryset uid ao (restrictDb uid db) :=
  ⟨fun _ hne hmem => hne (user_of_mem_ingredients hmem),
   fun _ hne hmem => hne (user_of_mem_tags hmem),
   ingredients_queryset_restrict db uid ao,
   tags_queryset_restrict db uid ao⟩

/-- C2 witness: in the store of the limited-to-user test, the ingredient
of the other user is absent from the listing of user 0. -/
theorem listing_owner_isolation_witness :
    (⟨0, "Sault", 1⟩ : Ingredient) ∉ get_ingredients_queryset 0 false dbIsolationW :=
  (listing_owner_isolation dbIsolationW 0 false).1 ⟨0, "Sault", 1⟩ (by decide)

/-- C3: with assigned_only false, the listing returns all ingredient (or
tag) rows owned by the requesting user, sorted in descending order of
name. -/
theorem listing_unassigned_sorted (db : Db) (uid : Nat) :
    (get_ingredients_queryset uid false db).Perm
        (db.ingredients.filter (fun i => i.user == uid)) ∧
    List.Pairwise (fun a b : Ingredient => b.name ≤ a.name)
        (get_ingredients_queryset uid false db) ∧
    (get_tags_queryset uid false db).Perm (db.tags.filter (fun t => t.user == uid)) ∧
    List.Pairwise (fun a b : Tag => b.name ≤ a.name) (get_tags_queryset uid false db) := by
  refine ⟨List.mergeSort_perm _ _, ?_, List.mergeSort_perm _ _, ?_⟩
  · exact (List.sorted_mergeSort (nameDesc_trans Ingredient.name)
      (nameDesc_total Ingredient.name) _).imp (fun h => of_decide_eq_true h)
  · exact (List.sorted_mergeSort (nameDesc_trans Tag.name)
      (nameDesc_total Tag.name) _).imp (fun h => of_decide_eq_true h)

/-- C4 counterexample: create_user with an absent email fails with a
ValueError, not with a ValidationError as the claim states. -/
theorem create_user_error_type_counterexample :
    (create_user none "pwd" emptyDb).1 = Except.error UserError.valueError ∧
    (create_user none "pwd" emptyDb).1 ≠ Except.error UserError.validationError := by
  refine ⟨rfl, ?_⟩
  intro h
  rw [show (create_user none "pwd" emptyDb).1 = Except.error UserError.valueError from rfl] at h
  injection h with h2
  exact absurd h2 (by decide)

/-- C4 (amended): create_user with an empty or absent email fails with a
ValueError and leaves the user store unchanged. -/
theorem create_user_missing_email (email : Option String) (pwd : String) (db : Db)
    (h : email = none ∨ email = some "") :
    create_user email pwd db = (Except.error UserError.valueError, db) := by
  rcases h with h | h <;> subst h
  · rfl
  · simp [create_user]

/-- C4 witness: the model test input, an absent email, at the empty
store. -/
theorem create_user_missing_email_witness :
    create_user none "pwd" emptyDb = (Except.error UserError.valueError, emptyDb) :=
  create_user_missing_email none "pwd" emptyDb (Or.inl rfl)

/-- C5: for every non-empty email, create_user stores the normalized email,
and on the concrete input of the normalization test the stored value equals
the full lowercase form of the input. -/
theorem create_user_email_normalized (email pwd : String) (db : Db) (h : email ≠ "") :
    (∃ u db2, create_user (some email) pwd db = (Except.ok u, db2) ∧
        u.email = normalize_email email) ∧
    normalize_email "test@COMPANY.COM" = lowerAll "test@COMPANY.COM" := by
  constructor
  · refine ⟨⟨db.users.length, normalize_email email, make_password pwd, true, false, false⟩,
      { db with users := db.users ++
        [⟨db.users.length, normalize_email email, make_password pwd, true, false, false⟩] },
      ?_, rfl⟩
    simp [create_user, h]
  · decide

/-- C5 witness: the concrete email of the normalization test. -/
theorem create_user_email_normalized_witness :
    (∃ u db2, create_user (some "test@COMPANY.COM") "test123" emptyDb = (Except.ok u, db2) ∧
        u.email = normalize_email "test@COMPANY.COM") ∧
    normalize_email "test@COMPANY.COM" = lowerAll "test@COMPANY.COM" :=
  create_user_email_normalized "test@COMPANY.COM" "test123" emptyDb (by decide)

/-- C6: after a successful create_user the stored password field is the
hash and never the plaintext, and check_password answers true exactly on
the password supplied at creation. -/
theorem create_user_password_hashed (email pwd : String) (db : Db) (h : email ≠ "") :
    ∃ u db2, create_user (some email) pwd db = (Except.ok u, db2) ∧
      u.password = make_password pwd ∧ u.password ≠ pwd ∧
      ∀ p, (check_password u p = true ↔ p = pwd) := by
  refine ⟨⟨db.users.length, normalize_email email, make_password pwd, true, false, false⟩,
    { db with users := db.users ++
      [⟨db.users.length, normalize_email email, make_password pwd, true, false, false⟩] },
    ?_, rfl, make_password_ne pwd, ?_⟩
  · simp [create_user, h]
  · intro p
    constructor
    · intro hp
      have heq : make_password pwd = make_password p := by
        simpa [check_password] using hp
      exact (make_password_inj heq).symm
    · intro hp
      subst hp
      simp [check_password]

/-- C6 witness: the concrete credentials of the password test. -/
theorem create_user_password_hashed_witness :
    ∃ u db2, create_user (some "test@company.com") "testpwd123" emptyDb = (Except.ok u, db2) ∧
      u.password = make_password "testpwd123" ∧ u.password ≠ "testpwd123" ∧
      ∀ p, (check_password u p = true ↔ p = "testpwd123") :=
  create_user_password_hashed "test@company.com" "testpwd123" emptyDb (by decide)

/-- C7: every unauthenticated request to a listing or creation endpoint is
answered with the authorization failure, carries no resource data, and
leaves the store unchanged. -/
theorem unauthenticated_requests_rejected (db : Db) (ao : Bool) (name title : String)
    (tm : Nat) (pr : ℚ) :
    list_ingredients none ao db = ApiResponse.unauthorized ∧
    list_tags none ao db = ApiResponse.unauthorized ∧
    create_ingredient none name db = (ApiResponse.unauthorized, db) ∧
    create_tag none name db = (ApiResponse.unauthorized, db) ∧
    create_recipe none title tm pr db = (ApiResponse.unauthorized, db) :=
  ⟨rfl, rfl, rfl, rfl, rfl⟩

set_option maxRecDepth 4000 in
/-- C8 counterexample: a non-empty name that no existing row carries but
that is longer than the 255-character column bound of migration 0003 is
rejected, so a non-empty unique name does not always succeed. -/
theorem create_ingredient_long_name_counterexample :
    longNameW ≠ "" ∧ (emptyDb.ingredients.any (fun i => i.name == longNameW)) = false ∧
    (create_ingredient (some 0) longNameW emptyDb).1 = ApiResponse.badRequest ∧
    (create_ingredient (some 0) longNameW emptyDb).2 = emptyDb := by
  refine ⟨by decide, rfl, by decide, by decide⟩

/-- C8 (amended): for every authenticated user, creating an ingredient with
an empty name fails validation and persists nothing, while a non-empty
unique name of length at most 255 succeeds with the created resource and
persists one row owned by the requesting user. -/
theorem create_ingredient_validation (db : Db) (uid : Nat) (name : String) :
    (name = "" → create_ingredient (some uid) name db = (ApiResponse.badRequest, db)) ∧
    (name ≠ "" → name.length ≤ 255 →
      (db.ingredients.any (fun i => i.name == name)) = false →
      create_ingredient (some uid) name db =
        (ApiResponse.created ⟨db.ingredients.length, name, uid⟩,
         { db with ingredients := db.ingredients ++ [⟨db.ingredients.length, name, uid⟩] })) := by
  constructor
  · intro h
    simp [create_ingredient, h]
  · intro h1 h2 h3
    have h2n : ¬ 255 < name.length := Nat.not_lt.mpr h2
    simp [create_ingredient, h1, h2n, h3]

/-- C8 witness: the creation test input persists the Cabbage row owned by
the requesting user with the created status. -/
theorem create_ingredient_validation_witness :
    create_ingredient (some 0) "Cabbage" emptyDb =
      (ApiResponse.created ⟨0, "Cabbage", 0⟩, ⟨[], [], [⟨0, "Cabbage", 0⟩], []⟩) :=
  (create_ingredient_validation emptyDb 0 "Cabbage").2 (by decide) (by decide) rfl

/-- C9: in every reachable database state, Tag names and Ingredient names
are unique across the whole system, over all users, as declared by the
unique constraint of migration 0003. -/
theorem names_globally_unique (db : Db) (h : Reachable db) :
    (db.ingredients.map Ingredient.name).Nodup ∧ (db.tags.map Tag.name).Nodup := by
  induction h with
  | init => exact ⟨List.nodup_nil, List.nodup_nil⟩
  | user_created e p d hr ih =>
    refine ⟨?_, ?_⟩
    · rw [(create_user_frame e p d).1]; exact ih.1
    · rw [(create_user_frame e p d).2]; exact ih.2
  | superuser_created e p d hr ih =>
    refine ⟨?_, ?_⟩
    · rw [(create_superuser_frame e p d).1]; exact ih.1
    · rw [(create_superuser_frame e p d).2]; exact ih.2
  | ingredient_created auth name d hr ih =>
    rcases create_ingredient_effect auth name d with ⟨hi, ht⟩ | ⟨_, hany, ht, uid, hi⟩
    · rw [hi, ht]; exact ih
    · refine ⟨?_, ?_⟩
      · rw [hi, List.map_append, List.nodup_append]
        exact ⟨ih.1, List.nodup_singleton _,
          by simpa [List.disjoint_singleton] using ingredient_name_not_mem hany⟩
      · rw [ht]; exact ih.2
  | tag_created auth name d hr ih =>
    rcases create_tag_effect auth name d with ⟨hi, ht⟩ | ⟨_, hany, hi, uid, ht⟩
    · rw [hi, ht]; exact ih
    · refine ⟨?_, ?_⟩
      · rw [hi]; exact ih.1
      · rw [ht, List.map_append, List.nodup_append]
        exact ⟨ih.2, List.nodup_singleton _,
          by simpa [List.disjoint_singleton] using tag_name_not_mem hany⟩
  | recipe_created auth t tm pr d hr ih =>
    refine ⟨?_, ?_⟩
    · rw [(create_recipe_frame auth t tm pr d).1]; exact ih.1
    · rw [(create_recipe_frame auth t tm pr d).2]; exact ih.2
  | ingredient_assigned rid iid d hr ih => exact ih
  | tag_assigned rid tid d hr ih => exact ih

/-- C9 witness: the reachable store holding the Sugar ingredient and the
Vegan tag satisfies the global uniqueness invariant. -/
theorem names_globally_unique_witness :
    (dbReachW.ingredients.map Ingredient.name).Nodup ∧
    (dbReachW.tags.map Tag.name).Nodup :=
  names_globally_unique dbReachW dbReachW_reachable

/-- C10: in every reachable database state, every Ingredient name and every
Tag name is at most 255 characters long, the column bound declared by
migration 0003; creation never stores a longer name. -/
theorem name_length_bounded (db : Db) (h : Reachable db) :
    (∀ i ∈ db.ingredients, i.name.length ≤ 255) ∧
    (∀ t ∈ db.tags, t.name.length ≤ 255) := by
  induction h with
  | init =>
    exact ⟨fun i hi => absurd hi (List.not_mem_nil i), fun t ht => absurd ht (List.not_mem_nil t)⟩
  | user_created e p d hr ih =>
    refine ⟨?_, ?_⟩
    · rw [(create_user_frame e p d).1]; exact ih.1
    · rw [(create_user_frame e p d).2]; exact ih.2
  | superuser_created e p d hr ih =>
    refine ⟨?_, ?_⟩
    · rw [(create_superuser_frame e p d).1]; exact ih.1
    · rw [(create_superuser_frame e p d).2]; exact ih.2
  | ingredient_created auth name d hr ih =>
    rcases create_ingredient_effect auth name d with ⟨hi, ht⟩ | ⟨hlen, _, ht, uid, hi⟩
    · rw [hi, ht]; exact ih
    · refine ⟨?_, ?_⟩
      · rw [hi]
        intro i hmem
        rcases List.mem_append.mp hmem with hmem | hmem
        · exact ih.1 i hmem
        · rcases List.mem_singleton.mp hmem with rfl
          exact hlen
      · rw [ht]; exact ih.2
  | tag_created auth name d hr ih =>
    rcases create_tag_effect auth name d with ⟨hi, ht⟩ | ⟨hlen, _, hi, uid, ht⟩
    · rw [hi, ht]; exact ih
    · refine ⟨?_, ?_⟩
      · rw [hi]; exact ih.1
      · rw [ht]
        intro t hmem
        rcases List.mem_append.mp hmem with hmem | hmem
        · exact ih.2 t hmem
        · rcases List.mem_singleton.mp hmem with rfl
          exact hlen
  | recipe_created auth t tm pr d hr ih =>
    refine ⟨?_, ?_⟩
    · rw [(create_recipe_frame auth t tm pr d).1]; exact ih.1
    · rw [(create_recipe_frame auth t tm pr d).2]; exact ih.2
  | ingredient_assigned rid iid d hr ih => exact ih
  | tag_assigned rid tid d hr ih => exact ih

/-- C10 witness: the Sugar row of the reachable witness store respects the
column bound. -/
theorem name_length_bounded_witness :
    (⟨0, "Sugar", 0⟩ : Ingredient).name.length ≤ 255 :=
  (name_length_bounded dbReachW dbReachW_reachable).1 ⟨0, "Sugar", 0⟩ (by decide)

end RecipeApp
